import Mathlib

/-!
Shallow embedding of the [incr Tcl] built-in method dispatch layer
(src/generic/itclBuiltin.c and src/generic/itclWidgetCmd.c).

Data model: classes, member functions, member variables, objects, and the
per-object variable storage are translated into plain Lean structures.
External collaborators (the Tcl interpreter's variable storage, the
hierarchy iterator, `Itcl_CreateMethod`, `Itcl_FindClass`,
`Itcl_EvalMemberCode`) that live outside the given sources are modelled
from the specification or taken as explicit function parameters.
-/

namespace Itcl

/-- Protection levels of class members (ITCL_PUBLIC / ITCL_PROTECTED /
ITCL_PRIVATE in itclInt.h). -/
inductive Protection where
  | pub
  | prot
  | priv
  deriving DecidableEq, Repr

/-- Member variable record (ItclVariable): simple name, fully-qualified
name, fully-qualified name of the declaring class (ivPtr->iclsPtr),
protection level, optional initial value (ivPtr->init), and whether a
config-code body is attached and implemented (ivPtr->codePtr). -/
structure ItclVariable where
  name : String
  fullName : String
  declClass : String
  protection : Protection
  init : Option String
  hasConfig : Bool
  deriving DecidableEq, Repr

/-- Member function record (ItclMemberFunc): simple name, fully-qualified
name, constructor flag (ITCL_CONSTRUCTOR), registration name when the
function is a built-in, and the usage string. -/
structure ItclMemberFunc where
  name : String
  fullName : String
  isConstructor : Bool
  registration : Option String
  usage : String
  deriving DecidableEq, Repr

/-- Reverse-lookup record (ItclVarLookup): the variable it resolves to and
the least-qualified name under which it is unambiguous in the object's
merged namespace. -/
structure ItclVarLookup where
  ivar : ItclVariable
  leastQualName : String
  deriving DecidableEq, Repr

/-- Class record (ItclClass): fully-qualified name, direct superclasses in
declaration order, member function table, member variable table (in
creation order), the resolved-variable table (resolveVars, keyed by both
simple and qualified names), the component slots, the ITCL_IS_CLASS flag,
and the widget frame/toplevel flags. -/
structure ItclClass where
  fullname : String
  supers : List String
  functions : List ItclMemberFunc
  vars : List ItclVariable
  resolveVars : List (String × ItclVarLookup)
  components : List String
  isClass : Bool
  widgetFrame : Bool
  widgetToplevel : Bool
  deriving DecidableEq, Repr

/-- Object record (ItclObject): most-derived class (ioPtr->iclsPtr), the
name of its variable namespace (ioPtr->varNsNamePtr) and its access
command name (ioPtr->accessCmd). -/
structure ItclObject where
  icls : ItclClass
  varNsName : String
  accessCmd : String
  deriving DecidableEq, Repr

/-- Variable storage of the host interpreter: an association list from
fully-qualified variable paths to string values; the most recent binding
wins. -/
abbrev Store := List (String × String)

/-- Read a variable from the store (Tcl_GetVar2); `none` means unset. -/
def storeGet (st : Store) (k : String) : Option String :=
  (st.find? (fun e => e.1 = k)).map (fun e => e.2)

/-- Write a variable to the store (Tcl_SetVar2). -/
def storeSet (st : Store) (k v : String) : Store :=
  (k, v) :: st

/-- Tcl values: either plain strings or lists of values (Tcl_Obj built with
Tcl_NewStringObj / Tcl_NewListObj). -/
inductive TObj where
  | str : String → TObj
  | list : List TObj → TObj

/-- Result of a Tcl command: TCL_OK with a result value, or TCL_ERROR with
the message left in the interpreter (error-info annotations appended). -/
inductive TclRes where
  | normal : TObj → TclRes
  | error : String → TclRes

/-- Drop the first character of a C string (the `token+1` idiom). -/
def strTail (s : String) : String := String.mk s.data.tail

/-- Test whether the first character of a C string is a dash
(the `*token == '-'` idiom). -/
def strHeadIsDash (s : String) : Bool := s.data.head? = some '-'

/-- Take the first `n` characters of a C string (the sprintf `%.100s`
precision idiom). -/
def strTake (s : String) (n : Nat) : String := String.mk (s.data.take n)

/-- Concatenation of the lists produced by `f` over a list, used to
translate nested C loops over the hierarchy. -/
def concatMap {α β : Type} (f : α → List β) : List α → List β
  | [] => []
  | a :: l => f a ++ concatMap f l

/-- Look up a class by its fully-qualified name in the class registry. -/
def envFind (env : List ItclClass) (n : String) : Option ItclClass :=
  env.find? (fun c => c.fullname = n)

/-- Fuel bound for the hierarchy walk: one step per initial worklist entry
plus one per superclass reference in the registry. -/
def hierFuel (env : List ItclClass) : Nat :=
  env.foldr (fun c a => a + c.supers.length) (env.length + 1)

/-- Modelled from the spec: the Hierarchy Iterator
(Itcl_InitHierIter / Itcl_AdvanceHierIter, not under src/) linearizes a
class's ancestor chain depth-first over superclasses, most-derived first,
ancestors in declaration order, each class visited once. `work` is the
pending worklist of class names, `seen` the names already visited. -/
def hierWalk (env : List ItclClass) : Nat → List String → List String → List ItclClass
  | 0, _, _ => []
  | _ + 1, [], _ => []
  | fuel + 1, n :: work, seen =>
    if n ∈ seen then hierWalk env fuel work seen
    else
      match envFind env n with
      | none => hierWalk env fuel work (n :: seen)
      | some c => c :: hierWalk env fuel (c.supers ++ work) (n :: seen)

/-- Modelled from the spec: the full hierarchy of a class, starting from
the given (live) class record itself, then its ancestors resolved through
the registry. -/
def hierarchyOf (env : List ItclClass) (c : ItclClass) : List ItclClass :=
  c :: hierWalk env (hierFuel env) c.supers [c.fullname]

/-- Full storage path of an instance variable: the object's variable
namespace, the declaring class's fully-qualified name, "::" and the simple
name (the Tcl_DString assembly in Itcl_BiConfigureCmd). -/
def varPath (obj : ItclObject) (iv : ItclVariable) : String :=
  obj.varNsName ++ iv.declClass ++ "::" ++ iv.name

/-- Modelled from the spec: the variable-storage collaborator
(Itcl_GetInstanceVar, not under src/) reads an instance variable by its
fully-qualified path and reports unset variables as `none`. -/
def Itcl_GetInstanceVar (st : Store) (obj : ItclObject) (iv : ItclVariable) : Option String :=
  storeGet st (varPath obj iv)

/-- Look up a key in a class's resolved-variable table
(Tcl_FindHashEntry on iclsPtr->resolveVars). -/
def lookupRV (cls : ItclClass) (key : String) : Option ItclVarLookup :=
  (cls.resolveVars.find? (fun e => e.1 = key)).map (fun e => e.2)

/-- ItclReportPublicOpt: format one public variable as the triple
(-optionName, initial value or undefined sentinel, current value or
undefined sentinel).  The option name is the least-qualified name found by
looking the variable's full name up in the most-derived class's
resolveVars table; the C code asserts that this entry exists, modelled
here as the `none` case. -/
def ItclReportPublicOpt (st : Store) (obj : ItclObject) (iv : ItclVariable) : Option TObj :=
  match lookupRV obj.icls iv.fullName with
  | none => none
  | some vl =>
    some (TObj.list
      [TObj.str ("-" ++ vl.leastQualName),
       TObj.str (iv.init.getD "<undefined>"),
       TObj.str ((Itcl_GetInstanceVar st obj iv).getD "<undefined>")])

/-- All public variables visible in the object's full hierarchy, classes
in hierarchy-iterator order, each class's own variable table in creation
order (the nested loops of the no-argument `configure` branch). -/
def publicHierVars (env : List ItclClass) (obj : ItclObject) : List ItclVariable :=
  concatMap (fun c => c.vars.filter (fun v => v.protection = Protection.pub))
    (hierarchyOf env obj.icls)

/-- Usage message of the configure built-in. -/
def cfgUsage : String :=
  "improper usage: should be \"object configure ?-option? ?value -option value...?\""

/-- Unknown-option error message. -/
def unknownOpt (tok : String) : String :=
  "unknown option \"" ++ tok ++ "\""

/-- Missing-value error message for a dangling option token. -/
def missingVal (tok : String) : String :=
  "value for \"" ++ tok ++ "\" missing"

/-- Error-info annotation added when assignment or config code of a public
variable fails; the sprintf %.100s precision truncates the name. -/
def cfgAnnot (fullName : String) : String :=
  "\n    (error in configuration of public variable \"" ++ strTake fullName 100 ++ "\")"

/-- Resolution of one configure option token: the token must start with a
dash and its remainder must be a key of the class's resolved-variable
table (the `*token == '-'` guard plus the resolveVars hash lookup). -/
def cfgLookup (cls : ItclClass) (token : String) : Option ItclVarLookup :=
  if strHeadIsDash token then lookupRV cls (strTail token) else none

/-- Loop of `configure -opt val -opt val ...` (the `for (i=1; i < objc;
i+=2)` loop): resolve each option token, save the prior raw value, assign
the new value, run the config hook if present, and on hook failure restore
the prior raw value of that option, annotate the error and stop.
`hookEval` models Tcl_EvalObjEx of the variable's config body: given the
variable's full name and the store it returns the store after the body ran
and `none` on success or the body's error message. -/
def configurePairs (hookEval : String → Store → Store × Option String)
    (obj : ItclObject) : List String → Store → TclRes × Store
  | [], st => (TclRes.normal (TObj.str ""), st)
  | token :: rest, st =>
    match cfgLookup obj.icls token with
    | none => (TclRes.error (unknownOpt token), st)
    | some vl =>
      if vl.ivar.protection ≠ Protection.pub then (TclRes.error (unknownOpt token), st)
      else
        match rest with
        | [] => (TclRes.error (missingVal token), st)
        | value :: rest2 =>
          let key := varPath obj vl.ivar
          let last := (storeGet st key).getD ""
          let st1 := storeSet st key value
          if vl.ivar.hasConfig then
            match hookEval vl.ivar.fullName st1 with
            | (st2, none) => configurePairs hookEval obj rest2 st2
            | (st2, some m) =>
              (TclRes.error (m ++ cfgAnnot vl.ivar.fullName), storeSet st2 key last)
          else configurePairs hookEval obj rest2 st1

/-- Accumulation of the per-variable triples of the no-argument configure
branch; `none` models the C assertion failing on an unresolvable full
name. -/
def reportAll (st : Store) (obj : ItclObject) : List ItclVariable → Option (List TObj)
  | [] => some []
  | v :: rest =>
    match ItclReportPublicOpt st obj v with
    | none => none
    | some t =>
      match reportAll st obj rest with
      | none => none
      | some ts => some (t :: ts)

/-- Core of the configure built-in after context and delegation checks:
no arguments reports every public option of the hierarchy; one argument
reports a single option triple; otherwise the option/value pairs are
assigned. -/
def configureCore (hookEval : String → Store → Store × Option String)
    (env : List ItclClass) (obj : ItclObject)
    (args : List String) (st : Store) : TclRes × Store :=
  match args with
  | [] =>
    match reportAll st obj (publicHierVars env obj) with
    | some objs => (TclRes.normal (TObj.list objs), st)
    | none => (TclRes.error "assertion failed in ItclReportPublicOpt", st)
  | [token] =>
    if strHeadIsDash token = false then (TclRes.error cfgUsage, st)
    else
      match lookupRV obj.icls (strTail token) with
      | some vl =>
        if vl.ivar.protection ≠ Protection.pub then (TclRes.error (unknownOpt token), st)
        else
          match ItclReportPublicOpt st obj vl.ivar with
          | some t => (TclRes.normal t, st)
          | none => (TclRes.error "assertion failed in ItclReportPublicOpt", st)
      | none => (TclRes.error (unknownOpt token), st)
  | _ => configurePairs hookEval obj args st

/-- Type of the external widget configuration delegate
(infoPtr->windgetInfoPtr->widgetConfigure): it receives the receiving
class and the whole argument vector verbatim. -/
def ItclWidgetDelegate : Type :=
  ItclClass → List String → Store → TclRes × Store

/-- Itcl_BiConfigureCmd: the configure built-in.  Requires an object
context; works in the virtual scope (the object's most-derived class); if
the class is not a plain class kind and a widget delegate is supplied, the
whole call is forwarded to the delegate; otherwise the built-in logic
runs. -/
def Itcl_BiConfigureCmd (hookEval : String → Store → Store × Option String)
    (delegate : Option ItclWidgetDelegate) (env : List ItclClass)
    (obj? : Option ItclObject) (args : List String) (st : Store) : TclRes × Store :=
  match obj? with
  | none => (TclRes.error cfgUsage, st)
  | some obj =>
    match delegate, obj.icls.isClass with
    | some d, false => d obj.icls ("configure" :: args) st
    | some _, true => configureCore hookEval env obj args st
    | none, _ => configureCore hookEval env obj args st

/-- Usage message of the cget built-in. -/
def cgetUsage : String :=
  "improper usage: should be \"object cget -option\""

/-- Core of the cget built-in after context and delegation checks: the
lookup key is the argument with its first character dropped (`name+1`,
with no check that the first character is a dash). -/
def cgetCore (obj : ItclObject) (name : String) (st : Store) : TclRes :=
  match lookupRV obj.icls (strTail name) with
  | some vl =>
    if vl.ivar.protection ≠ Protection.pub then TclRes.error (unknownOpt name)
    else TclRes.normal (TObj.str ((Itcl_GetInstanceVar st obj vl.ivar).getD "<undefined>"))
  | none => TclRes.error (unknownOpt name)

/-- Itcl_BiCgetCmd: the cget built-in.  Requires an object context and
exactly one argument; in the virtual scope, a non-class kind with a widget
delegate forwards the whole call verbatim; otherwise the built-in lookup
runs. -/
def Itcl_BiCgetCmd (delegate : Option ItclWidgetDelegate)
    (obj? : Option ItclObject) (args : List String) (st : Store) : TclRes × Store :=
  match obj?, args with
  | some obj, [name] =>
    match delegate, obj.icls.isClass with
    | some d, false => d obj.icls ["cget", name] st
    | some _, true => (cgetCore obj name st, st)
    | none, _ => (cgetCore obj name st, st)
  | _, _ => (TclRes.error cgetUsage, st)

/-- Modelled from the spec: Itcl_ObjectIsa (not under src/) checks whether
a class is anywhere in the object's heritage. -/
def Itcl_ObjectIsa (env : List ItclClass) (obj : ItclObject) (cls : ItclClass) : Bool :=
  (hierarchyOf env obj.icls).any (fun c => c.fullname = cls.fullname)

/-- Itcl_BiIsaCmd: the isa built-in.  `findClass` models Itcl_FindClass
with the autoload flag set (not under src/): the result of looking the
name up in the loaded set after a synchronous autoload attempt, an error
carrying the resolution message when the class cannot be found. -/
def Itcl_BiIsaCmd (findClass : String → Except String ItclClass)
    (env : List ItclClass) (obj? : Option ItclObject) (args : List String) : TclRes :=
  match obj? with
  | none => TclRes.error "improper usage: should be \"object isa className\""
  | some obj =>
    match args with
    | [token] =>
      match findClass token with
      | Except.error e => TclRes.error e
      | Except.ok cls =>
        TclRes.normal (TObj.str (if Itcl_ObjectIsa env obj cls then "1" else "0"))
    | _ => TclRes.error "wrong # args: should be \"object isa className\""

/-- One entry of the built-in method table: name, usage string and
registration name. -/
structure BiMethod where
  name : String
  usage : String
  registration : String
  deriving DecidableEq, Repr

/-- BiMethodList: the standard list of built-in methods for all objects. -/
def BiMethodList : List BiMethod :=
  [⟨"cget", "-option", "@itcl-builtin-cget"⟩,
   ⟨"configure", "?-option? ?value -option value...?", "@itcl-builtin-configure"⟩,
   ⟨"info", "???", "@itcl-builtin-info"⟩,
   ⟨"isa", "className", "@itcl-builtin-isa"⟩]

/-- Check whether a member function with the exact given name already
exists anywhere in the class's full ancestor hierarchy (the hier-iterator
scan in Itcl_InstallBiMethods, starting at the class itself). -/
def findInHier (env : List ItclClass) (cls : ItclClass) (fname : String) : Bool :=
  (hierarchyOf env cls).any (fun c => c.functions.any (fun f => f.name = fname))

/-- The member function record created for a built-in method. -/
def mkBiFunc (clsFullname : String) (b : BiMethod) : ItclMemberFunc :=
  { name := b.name
    fullName := clsFullname ++ "::" ++ b.name
    isConstructor := false
    registration := some b.registration
    usage := b.usage }

/-- Modelled from the spec: Itcl_CreateMethod (not under src/) creates a
member function record bound to the built-in implementation under its
registration name; it fails only on a name collision at creation time. -/
def Itcl_CreateMethod (cls : ItclClass) (b : BiMethod) : Except String ItclClass :=
  if cls.functions.any (fun f => f.name = b.name) then
    Except.error ("\"" ++ b.name ++ "\" already defined in class \"" ++ cls.fullname ++ "\"")
  else
    Except.ok { cls with functions := cls.functions ++ [mkBiFunc cls.fullname b] }

/-- Loop of Itcl_InstallBiMethods over the built-in method table: for each
entry, scan the hierarchy for an existing function of that name; if none,
create the built-in member; a creation failure aborts the loop, leaving
the class with only the members installed so far.  The creation routine is
a parameter so that its failure behaviour can be stated abstractly. -/
def installLoop (create : ItclClass → BiMethod → Except String ItclClass)
    (env : List ItclClass) : List BiMethod → ItclClass → ItclClass × Option String
  | [], cls => (cls, none)
  | b :: rest, cls =>
    if findInHier env cls b.name then installLoop create env rest cls
    else
      match create cls b with
      | Except.error e => (cls, some e)
      | Except.ok cls2 => installLoop create env rest cls2

/-- Itcl_InstallBiMethods: install the built-in methods of BiMethodList
into a freshly parsed class. -/
def Itcl_InstallBiMethods (create : ItclClass → BiMethod → Except String ItclClass)
    (env : List ItclClass) (cls : ItclClass) : ItclClass × Option String :=
  installLoop create env BiMethodList cls

/-- The suffix of a character list strictly after its last "::", or `none`
when no "::" occurs. -/
def tailAfterColons : List Char → Option (List Char)
  | [] => none
  | ':' :: ':' :: rest => some ((tailAfterColons rest).getD rest)
  | _ :: rest => tailAfterColons rest

/-- Itcl_ParseNamespPath tail component: trim any leading namespace path
from a command name. -/
def simpleName (cmd : String) : String :=
  String.mk ((tailAfterColons cmd.data).getD cmd.data)

/-- The member name `chain` resolves: the current call-frame command word
(the first word of a direct call, the second when an object stands in
front), trimmed of namespace qualifiers, with the internal constructor
initializer name normalized to "constructor". -/
def chainResolvedCmd (directCall : Bool) (words : List String) : String :=
  let cmd0 := if directCall then words.headD "" else (words.drop 1).headD ""
  let c := simpleName cmd0
  if c = "___constructor_init" then "constructor" else c

/-- Advance through the hierarchy list until the given class is found and
return the remaining suffix after it (the first while-loop of
Itcl_BiChainCmd). -/
def skipToClass : List ItclClass → String → List ItclClass
  | [], _ => []
  | c :: rest, n => if c.fullname = n then rest else skipToClass rest n

/-- The ancestor search path of chain: with an object context, the
object's full hierarchy skip-advanced past the currently executing class;
without one, the current class's hierarchy with the class itself
skipped. -/
def chainPath (env : List ItclClass) (ctxCls : ItclClass)
    (obj? : Option ItclObject) : List ItclClass :=
  match obj? with
  | some obj => skipToClass (hierarchyOf env obj.icls) ctxCls.fullname
  | none => (hierarchyOf env ctxCls).drop 1

/-- Search loop of Itcl_BiChainCmd: the first class on the path whose
member table contains the resolved name is invoked through its
fully-qualified name with all of chain's arguments (`ev` models
Itcl_CreateArgs plus Itcl_EvalMemberCode, not under src/: it receives the
target's fully-qualified name, the object the member executes against and
the argument words).  A constructor target executes against the live
object under construction (`currIo`).  If no class on the path defines the
name, chain does nothing and succeeds with an empty result. -/
def chainSearch (ev : String → Option ItclObject → List String → Store → TclRes × Store)
    (currIo obj? : Option ItclObject) (cmd : String) (args : List String)
    (st : Store) : List ItclClass → TclRes × Store
  | [] => (TclRes.normal (TObj.str ""), st)
  | c :: rest =>
    match c.functions.find? (fun f => f.name = cmd) with
    | some im =>
      if im.isConstructor then ev im.fullName currIo args st
      else ev im.fullName obj? args st
    | none => chainSearch ev currIo obj? cmd args st rest

/-- Itcl_BiChainCmd: the chain built-in.  `ctx?` models Itcl_GetContext
(the current class scope and optional object); `frameWords` models
Itcl_GetCallFrameObjv (the words of the active call frame, `none` when the
command name cannot be determined); `directCall` models a null call-frame
client data (a direct call with no object in front). -/
def Itcl_BiChainCmd (ev : String → Option ItclObject → List String → Store → TclRes × Store)
    (env : List ItclClass) (currIo : Option ItclObject)
    (ctx? : Option (ItclClass × Option ItclObject))
    (frameWords : Option (List String)) (directCall : Bool)
    (args : List String) (st : Store) : TclRes × Store :=
  match ctx? with
  | none => (TclRes.error "cannot chain functions outside of a class context", st)
  | some (ctxCls, obj?) =>
    match frameWords with
    | none => (TclRes.normal (TObj.str ""), st)
    | some words =>
      chainSearch ev currIo obj? (chainResolvedCmd directCall words) args st
        (chainPath env ctxCls obj?)

/-- Tcl_NewStringObj with an explicit byte count: only the first `len`
characters of the literal become the new string. -/
def tclNewStringObj (s : String) (len : Nat) : String :=
  String.mk (s.data.take len)

/-- Modelled from the spec: ItclCreateComponent (not under src/) adds a
named component slot to a composite class, idempotent against an existing
slot of the same name. -/
def ItclCreateComponent (cls : ItclClass) (name : String) : ItclClass :=
  if cls.components.contains name then cls
  else { cls with components := cls.components ++ [name] }

/-- Modelled from the spec: Itcl_CreateVariable (not under src/) appends a
member variable record with no initial value and no config code to the
class's variable table. -/
def Itcl_CreateVariable (cls : ItclClass) (name : String) : ItclClass :=
  { cls with vars := cls.vars ++
      [{ name := name
         fullName := cls.fullname ++ "::" ++ name
         declClass := cls.fullname
         protection := Protection.prot
         init := none
         hasConfig := false }] }

/-- Itcl_WidgetCmd: build an [incr Tcl] widget class.  `base` is the
result of ItclClassBaseCmd (not under src/: the parsed class definition or
its error).  When neither widget flag was specified the frame flag is set
by default; then the hull component and the options variable are created.
Faithful to the source, the options variable name is built with
Tcl_NewStringObj("itcl_options", 11), which keeps only the first 11
characters of the 12-character literal. -/
def Itcl_WidgetCmd (base : Except String ItclClass) : Except String ItclClass :=
  match base with
  | Except.error e => Except.error e
  | Except.ok cls0 =>
    let cls1 := if cls0.widgetFrame = false ∧ cls0.widgetToplevel = false
                then { cls0 with widgetFrame := true } else cls0
    let cls2 := ItclCreateComponent cls1 (tclNewStringObj "hull" 4)
    let cls3 := Itcl_CreateVariable cls2 (tclNewStringObj "itcl_options" 11)
    Except.ok cls3



/-- Reading back the key just written returns the written value. -/
theorem storeGet_storeSet (st : Store) (k v : String) :
    storeGet (storeSet st k v) k = some v := by
  simp [storeGet, storeSet]

/-- Every class produced by the hierarchy walk has a name outside the
visited set. -/
theorem hierWalk_notmem_seen (env : List ItclClass) (fuel : Nat) :
    ∀ (work seen : List String), ∀ c ∈ hierWalk env fuel work seen, c.fullname ∉ seen := by
  induction fuel with
  | zero => intro work seen c hc; simp [hierWalk] at hc
  | succ n ih =>
    intro work seen c hc
    cases work with
    | nil => simp [hierWalk] at hc
    | cons m work2 =>
      simp only [hierWalk] at hc
      split at hc
      · exact ih work2 seen c hc
      · rename_i hm
        split at hc
        · intro hmem
          exact (ih work2 (m :: seen) c hc) (List.mem_cons_of_mem _ hmem)
        · rename_i c2 he
          rcases List.mem_cons.mp hc with rfl | hc2
          · have hname : c.fullname = m := by
              have := List.find?_some he
              simpa using this
            rw [hname]; exact hm
          · intro hmem
            exact (ih _ (m :: seen) c hc2) (List.mem_cons_of_mem _ hmem)

/-- The hierarchy walk never produces the same class name twice. -/
theorem hierWalk_nodup (env : List ItclClass) (fuel : Nat) :
    ∀ (work seen : List String),
      ((hierWalk env fuel work seen).map (fun c => c.fullname)).Nodup := by
  induction fuel with
  | zero => intro work seen; simp [hierWalk]
  | succ n ih =>
    intro work seen
    cases work with
    | nil => simp [hierWalk]
    | cons m work2 =>
      simp only [hierWalk]
      split
      · exact ih _ _
      · split
        · exact ih _ _
        · rename_i hm c2 he
          simp only [List.map_cons, List.nodup_cons]
          constructor
          · intro hmem
            rcases List.mem_map.mp hmem with ⟨c, hc, hceq⟩
            have hname : c2.fullname = m := by
              have := List.find?_some he
              simpa using this
            have hnot := hierWalk_notmem_seen env n _ _ c hc
            exact hnot (by rw [hceq, hname]; exact List.mem_cons_self _ _)
          · exact ih _ _

/-- The full hierarchy of a class visits each class name exactly once. -/
theorem hierarchyOf_nodup (env : List ItclClass) (c : ItclClass) :
    ((hierarchyOf env c).map (fun k => k.fullname)).Nodup := by
  simp only [hierarchyOf, List.map_cons, List.nodup_cons]
  constructor
  · intro hmem
    rcases List.mem_map.mp hmem with ⟨k, hk, hkeq⟩
    have hnot := hierWalk_notmem_seen env _ _ _ k hk
    exact hnot (by rw [hkeq]; exact List.mem_cons_self _ _)
  · exact hierWalk_nodup env _ _ _

/-- The skip-advance loop of chain drops everything up to and including
the first class carrying the given name. -/
theorem skipToClass_eq_dropWhile (n : String) :
    ∀ l : List ItclClass,
      skipToClass l n = (l.dropWhile (fun c => c.fullname ≠ n)).drop 1 := by
  intro l
  induction l with
  | nil => rfl
  | cons c rest ih =>
    simp only [skipToClass, List.dropWhile]
    by_cases h : c.fullname = n
    · simp [h]
    · simp [h, ih]

/-- The search loop of chain picks the first class on the path whose
member table resolves the name, and otherwise succeeds with an empty
result. -/
theorem chainSearch_eq_findSome
    (ev : String → Option ItclObject → List String → Store → TclRes × Store)
    (currIo obj? : Option ItclObject) (cmd : String)
    (args : List String) (st : Store) :
    ∀ l : List ItclClass,
      chainSearch ev currIo obj? cmd args st l =
        match l.findSome? (fun c => c.functions.find? (fun f => f.name = cmd)) with
        | some im =>
          if im.isConstructor then ev im.fullName currIo args st
          else ev im.fullName obj? args st
        | none => (TclRes.normal (TObj.str ""), st) := by
  intro l
  induction l with
  | nil => rfl
  | cons c rest ih =>
    simp only [chainSearch, List.findSome?_cons]
    cases hf : c.functions.find? (fun f => f.name = cmd) with
    | some im => simp
    | none => simpa using ih


/-- C3: for every chain call with an object context, the search path is
the object's full class hierarchy skip-advanced past the currently
executing class; with no object context it starts one level above the
current class; the first class on the remaining path whose member table
contains the resolved member name is invoked through its fully-qualified
name with all of chain's arguments (constructors against the object under
construction), and its result or error becomes chain's result; with no
match chain succeeds with an empty result. -/
theorem chain_search_path_spec
    (ev : String → Option ItclObject → List String → Store → TclRes × Store)
    (env : List ItclClass) (currIo : Option ItclObject)
    (ctxCls : ItclClass) (obj? : Option ItclObject)
    (words : List String) (directCall : Bool)
    (args : List String) (st : Store) :
    Itcl_BiChainCmd ev env currIo (some (ctxCls, obj?)) (some words) directCall args st
      = match ((match obj? with
               | some obj =>
                 ((hierarchyOf env obj.icls).dropWhile
                    (fun c => c.fullname ≠ ctxCls.fullname)).drop 1
               | none => (hierarchyOf env ctxCls).drop 1 : List ItclClass)).findSome?
                (fun c => c.functions.find?
                   (fun f => f.name = chainResolvedCmd directCall words)) with
        | some im =>
          if im.isConstructor then ev im.fullName currIo args st
          else ev im.fullName obj? args st
        | none => (TclRes.normal (TObj.str ""), st) := by
  show chainSearch ev currIo obj? (chainResolvedCmd directCall words) args st
        (chainPath env ctxCls obj?) = _
  rw [chainSearch_eq_findSome]
  cases obj? with
  | some obj => rw [chainPath, skipToClass_eq_dropWhile]
  | none => rfl

/-- C6: for every chain call whose ancestor search path contains no class
defining the resolved member name, chain returns success with an empty
result and the variable storage is unchanged. -/
theorem chain_no_target_noop
    (ev : String → Option ItclObject → List String → Store → TclRes × Store)
    (env : List ItclClass) (currIo : Option ItclObject)
    (ctxCls : ItclClass) (obj? : Option ItclObject)
    (words : List String) (directCall : Bool)
    (args : List String) (st : Store)
    (h : (chainPath env ctxCls obj?).findSome?
           (fun c => c.functions.find?
              (fun f => f.name = chainResolvedCmd directCall words)) = none) :
    Itcl_BiChainCmd ev env currIo (some (ctxCls, obj?)) (some words) directCall args st
      = (TclRes.normal (TObj.str ""), st) := by
  show chainSearch ev currIo obj? (chainResolvedCmd directCall words) args st
        (chainPath env ctxCls obj?) = _
  rw [chainSearch_eq_findSome, h]

/-- Unfolding equation for one step of the configure option/value loop. -/
theorem configurePairs_cons (hookEval : String → Store → Store × Option String)
    (obj : ItclObject) (token : String) (rest : List String) (st : Store) :
    configurePairs hookEval obj (token :: rest) st
      = match cfgLookup obj.icls token with
        | none => (TclRes.error (unknownOpt token), st)
        | some vl =>
          if vl.ivar.protection ≠ Protection.pub then (TclRes.error (unknownOpt token), st)
          else
            match rest with
            | [] => (TclRes.error (missingVal token), st)
            | value :: rest2 =>
              if vl.ivar.hasConfig then
                match hookEval vl.ivar.fullName (storeSet st (varPath obj vl.ivar) value) with
                | (st2, none) => configurePairs hookEval obj rest2 st2
                | (st2, some m) =>
                  (TclRes.error (m ++ cfgAnnot vl.ivar.fullName),
                   storeSet st2 (varPath obj vl.ivar)
                     ((storeGet st (varPath obj vl.ivar)).getD ""))
              else configurePairs hookEval obj rest2 (storeSet st (varPath obj vl.ivar) value)
      := by
  simp only [configurePairs]

/-- Length-indexed helper: a prefix of option/value tokens that the
configure loop consumes completely and successfully composes with the
processing of the remaining tokens. -/
theorem configurePairs_append_len (hookEval : String → Store → Store × Option String)
    (obj : ItclObject) :
    ∀ (n : Nat) (done : List String), done.length ≤ n →
      ∀ (st0 st1 : Store) (more : List String),
      configurePairs hookEval obj done st0 = (TclRes.normal (TObj.str ""), st1) →
      configurePairs hookEval obj (done ++ more) st0
        = configurePairs hookEval obj more st1 := by
  intro n
  induction n with
  | zero =>
    intro done hlen st0 st1 more h
    have hnil : done = [] := List.length_eq_zero.mp (Nat.le_zero.mp hlen)
    subst hnil
    simp only [configurePairs] at h
    cases h
    simp
  | succ n ih =>
    intro done hlen st0 st1 more h
    cases done with
    | nil =>
      simp only [configurePairs] at h
      cases h
      simp
    | cons token rest =>
      rw [List.cons_append]
      rw [configurePairs_cons] at h ⊢
      cases hl : cfgLookup obj.icls token with
      | none =>
        rw [hl] at h
        dsimp only at h
        exact absurd h (by simp)
      | some vl =>
        rw [hl] at h
        dsimp only at h ⊢
        by_cases hp : vl.ivar.protection ≠ Protection.pub
        · rw [if_pos hp] at h
          exact absurd h (by simp)
        · rw [if_neg hp] at h ⊢
          cases rest with
          | nil =>
            dsimp only at h
            exact absurd h (by simp)
          | cons value rest2 =>
            rw [List.cons_append]
            dsimp only at h ⊢
            have hlen2 : rest2.length ≤ n := by
              simp only [List.length_cons] at hlen
              omega
            by_cases hc : vl.ivar.hasConfig = true
            · rw [if_pos hc] at h ⊢
              cases hhk : hookEval vl.ivar.fullName
                  (storeSet st0 (varPath obj vl.ivar) value) with
              | mk st2 e =>
                rw [hhk] at h
                cases e with
                | none =>
                  dsimp only at h ⊢
                  exact ih rest2 hlen2 st2 st1 more h
                | some m =>
                  dsimp only at h
                  exact absurd h (by simp)
            · rw [if_neg hc] at h ⊢
              exact ih rest2 hlen2 _ st1 more h

/-- A successfully consumed prefix of configure option/value pairs leaves
the loop at the state from which the remaining tokens are processed: the
pairs are handled left to right and earlier assignments stay committed. -/
theorem configurePairs_append (hookEval : String → Store → Store × Option String)
    (obj : ItclObject) (done : List String) (st0 st1 : Store) (more : List String)
    (h : configurePairs hookEval obj done st0 = (TclRes.normal (TObj.str ""), st1)) :
    configurePairs hookEval obj (done ++ more) st0
      = configurePairs hookEval obj more st1 :=
  configurePairs_append_len hookEval obj done.length done le_rfl st0 st1 more h

/-- With at least two argument words, configure runs the option/value
assignment loop. -/
theorem configureCore_cons2 (hookEval : String → Store → Store × Option String)
    (env : List ItclClass) (obj : ItclObject) (a b : String) (l : List String)
    (st : Store) :
    configureCore hookEval env obj (a :: b :: l) st
      = configurePairs hookEval obj (a :: b :: l) st := rfl

/-- In the virtual scope of a plain class kind, configure never delegates. -/
theorem biConfigure_to_core (hookEval : String → Store → Store × Option String)
    (delegate : Option ItclWidgetDelegate) (env : List ItclClass)
    (obj : ItclObject) (args : List String) (st : Store)
    (hcls : obj.icls.isClass = true) :
    Itcl_BiConfigureCmd hookEval delegate env (some obj) args st
      = configureCore hookEval env obj args st := by
  cases delegate with
  | none => rfl
  | some d => simp [Itcl_BiConfigureCmd, hcls]

/-- C1: in an object context, configure processes option/value pairs left
to right; a pair whose config hook fails leaves the call with the prior
raw value of that single option restored, the error annotated with the
option's fully-qualified name, the remaining pairs unprocessed, and the
assignments committed by the earlier pairs of the same call still in
place (the result state extends the state reached after the successful
prefix). -/
theorem configure_pairs_hook_failure
    (hookEval : String → Store → Store × Option String)
    (delegate : Option ItclWidgetDelegate) (env : List ItclClass)
    (obj : ItclObject) (done rest : List String) (x bad : String)
    (st0 st1 st2 : Store) (vl : ItclVarLookup) (m : String)
    (hcls : obj.icls.isClass = true)
    (hdone : configurePairs hookEval obj done st0 = (TclRes.normal (TObj.str ""), st1))
    (hlook : cfgLookup obj.icls x = some vl)
    (hpub : vl.ivar.protection = Protection.pub)
    (hcfg : vl.ivar.hasConfig = true)
    (hfail : hookEval vl.ivar.fullName (storeSet st1 (varPath obj vl.ivar) bad)
      = (st2, some m)) :
    Itcl_BiConfigureCmd hookEval delegate env (some obj) (done ++ x :: bad :: rest) st0
      = (TclRes.error (m ++ cfgAnnot vl.ivar.fullName),
         storeSet st2 (varPath obj vl.ivar)
           ((storeGet st1 (varPath obj vl.ivar)).getD ""))
    ∧ storeGet
        (storeSet st2 (varPath obj vl.ivar)
          ((storeGet st1 (varPath obj vl.ivar)).getD ""))
        (varPath obj vl.ivar)
      = some ((storeGet st1 (varPath obj vl.ivar)).getD "") := by
  refine ⟨?_, storeGet_storeSet _ _ _⟩
  rw [biConfigure_to_core hookEval delegate env obj _ st0 hcls]
  have hcore : configureCore hookEval env obj (done ++ x :: bad :: rest) st0
      = configurePairs hookEval obj (done ++ x :: bad :: rest) st0 := by
    cases done with
    | nil => exact configureCore_cons2 hookEval env obj x bad rest st0
    | cons d0 d1 =>
      rw [List.cons_append]
      cases hd : d1 ++ x :: bad :: rest with
      | nil => exact absurd (List.append_eq_nil.mp hd).2 (by simp)
      | cons a l =>
        exact configureCore_cons2 hookEval env obj d0 a l st0
  rw [hcore, configurePairs_append hookEval obj done st0 st1 _ hdone,
    configurePairs_cons, hlook]
  dsimp only
  rw [if_neg (by rw [hpub]; simp), if_pos hcfg, hfail]

/-- Sample public variable "color" of class ::W with a config hook. -/
def colorVar : ItclVariable :=
  { name := "color", fullName := "::W::color", declClass := "::W",
    protection := Protection.pub, init := some "red", hasConfig := true }

/-- Sample public variable "plain" of class ::W without a config hook. -/
def plainVar : ItclVariable :=
  { name := "plain", fullName := "::W::plain", declClass := "::W",
    protection := Protection.pub, init := none, hasConfig := false }

/-- Sample plain class ::W with two public variables. -/
def wClass : ItclClass :=
  { fullname := "::W", supers := [], functions := [],
    vars := [plainVar, colorVar],
    resolveVars :=
      [("color", ⟨colorVar, "color"⟩), ("::W::color", ⟨colorVar, "color"⟩),
       ("plain", ⟨plainVar, "plain"⟩), ("::W::plain", ⟨plainVar, "plain"⟩)],
    components := [], isClass := true,
    widgetFrame := false, widgetToplevel := false }

/-- Sample object of class ::W. -/
def wObj : ItclObject :=
  { icls := wClass, varNsName := "ns", accessCmd := "w1" }

/-- Sample config-hook evaluator that always fails with message "boom". -/
def failHook : String → Store → Store × Option String :=
  fun _ st => (st, some "boom")

/-- Witness for C1: configuring plain then color then plain again on a
::W object, where color's hook fails, commits the first assignment,
restores color to its prior value "red" and never reaches the third
pair. -/
theorem configure_pairs_hook_failure_witness :
    Itcl_BiConfigureCmd failHook none [] (some wObj)
        ["-plain", "v1", "-color", "bad", "-plain", "zz"]
        [("ns::W::color", "red")]
      = (TclRes.error ("boom" ++ cfgAnnot "::W::color"),
         [("ns::W::color", "red"), ("ns::W::color", "bad"),
          ("ns::W::plain", "v1"), ("ns::W::color", "red")])
    ∧ storeGet
        [("ns::W::color", "red"), ("ns::W::color", "bad"),
         ("ns::W::plain", "v1"), ("ns::W::color", "red")] "ns::W::color"
      = some "red" :=
  configure_pairs_hook_failure failHook none [] wObj ["-plain", "v1"] ["-plain", "zz"]
    "-color" "bad" [("ns::W::color", "red")]
    [("ns::W::plain", "v1"), ("ns::W::color", "red")]
    [("ns::W::color", "bad"), ("ns::W::plain", "v1"), ("ns::W::color", "red")]
    ⟨colorVar, "color"⟩ "boom" rfl rfl rfl rfl rfl rfl

/-- Sample member-code evaluator that reports which member it ran. -/
def traceEval : String → Option ItclObject → List String → Store → TclRes × Store :=
  fun n _ args st => (TclRes.normal (TObj.list (TObj.str n :: args.map TObj.str)), st)

/-- Witness for C6: chaining from a method of the root class ::W finds no
further implementation, succeeds with an empty result and leaves the
variable storage untouched. -/
theorem chain_no_target_noop_witness :
    Itcl_BiChainCmd traceEval [] none (some (wClass, some wObj)) (some ["w1", "greet"]) false
        ["a", "b"] [("k", "v")]
      = (TclRes.normal (TObj.str ""), [("k", "v")]) :=
  chain_no_target_noop traceEval [] none wClass (some wObj) ["w1", "greet"] false
    ["a", "b"] [("k", "v")] rfl

/-- The hierarchy function check of a class whose identity fields agree
with a base class and whose member table extends the base's by `extras`
is the base's check extended by the new names. -/
theorem findInHier_fields (env : List ItclClass) (cls cls2 : ItclClass)
    (extras : List ItclMemberFunc) (n : String)
    (hfn : cls2.fullname = cls.fullname) (hsup : cls2.supers = cls.supers)
    (hfun : cls2.functions = cls.functions ++ extras) :
    findInHier env cls2 n = (findInHier env cls n || extras.any (fun f => f.name = n)) := by
  simp only [findInHier, hierarchyOf, hfn, hsup, hfun, List.any_cons, List.any_append]
  cases h1 : cls.functions.any (fun f => f.name = n) <;>
    cases h2 : extras.any (fun f => f.name = n) <;>
    cases h3 : (hierWalk env (hierFuel env) cls.supers [cls.fullname]).any
        (fun c => c.functions.any (fun f => f.name = n)) <;> simp

/-- A name whose hierarchy check fails occurs nowhere in the class's own
member table. -/
theorem findInHier_false_own (env : List ItclClass) (cls : ItclClass) (n : String)
    (hf : findInHier env cls n = false) :
    cls.functions.any (fun f => f.name = n) = false := by
  simp only [findInHier, hierarchyOf, List.any_cons, Bool.or_eq_false_iff] at hf
  exact hf.1

/-- The concrete creation routine never fails during installation; the
loop preserves the class identity and only appends built-in records made
from pending table entries. -/
theorem installLoop_createMethod_shape (env : List ItclClass) :
    ∀ (bs : List BiMethod) (cls : ItclClass),
      ((installLoop Itcl_CreateMethod env bs cls).2 = none)
      ∧ ((installLoop Itcl_CreateMethod env bs cls).1.fullname = cls.fullname)
      ∧ ((installLoop Itcl_CreateMethod env bs cls).1.supers = cls.supers)
      ∧ ∃ extras : List ItclMemberFunc,
          (installLoop Itcl_CreateMethod env bs cls).1.functions = cls.functions ++ extras
          ∧ ∀ f ∈ extras, ∃ b, b ∈ bs ∧ f = mkBiFunc cls.fullname b := by
  intro bs
  induction bs with
  | nil =>
    intro cls
    exact ⟨rfl, rfl, rfl, [], by simp [installLoop], by simp⟩
  | cons b0 rest ih =>
    intro cls
    cases hf : findInHier env cls b0.name with
    | true =>
      obtain ⟨h1, h2, h3, extras, h4, h5⟩ := ih cls
      refine ⟨?_, ?_, ?_, extras, ?_, ?_⟩
      · simp only [installLoop, hf, if_true]; exact h1
      · simp only [installLoop, hf, if_true]; exact h2
      · simp only [installLoop, hf, if_true]; exact h3
      · simp only [installLoop, hf, if_true]; exact h4
      · intro f hfe
        obtain ⟨b2, hb2, hfeq⟩ := h5 f hfe
        exact ⟨b2, List.mem_cons_of_mem _ hb2, hfeq⟩
    | false =>
      have hown := findInHier_false_own env cls b0.name hf
      have hcreate : Itcl_CreateMethod cls b0
          = Except.ok { cls with functions := cls.functions ++ [mkBiFunc cls.fullname b0] } := by
        simp [Itcl_CreateMethod, hown]
      obtain ⟨h1, h2, h3, extras, h4, h5⟩ :=
        ih { cls with functions := cls.functions ++ [mkBiFunc cls.fullname b0] }
      have hred : installLoop Itcl_CreateMethod env (b0 :: rest) cls
          = installLoop Itcl_CreateMethod env rest
              { cls with functions := cls.functions ++ [mkBiFunc cls.fullname b0] } := by
        simp only [installLoop, hf, Bool.false_eq_true, if_false, hcreate]
      refine ⟨?_, ?_, ?_, mkBiFunc cls.fullname b0 :: extras, ?_, ?_⟩
      · rw [hred]; exact h1
      · rw [hred]; exact h2
      · rw [hred]; exact h3
      · rw [hred, h4, List.append_assoc]
        rfl
      · intro f hfe
        rcases List.mem_cons.mp hfe with rfl | hfe2
        · exact ⟨b0, List.mem_cons_self _ _, rfl⟩
        · obtain ⟨b2, hb2, hfeq⟩ := h5 f hfe2
          exact ⟨b2, List.mem_cons_of_mem _ hb2, hfeq⟩

/-- Per-name effect of the installation loop: a name already reachable in
the hierarchy keeps exactly the user's records and receives no built-in;
a missing name receives exactly one built-in record; afterwards the name
always resolves somewhere in the hierarchy. -/
theorem installLoop_per_name (env : List ItclClass) :
    ∀ (bs : List BiMethod) (cls : ItclClass) (b : BiMethod),
      b ∈ bs → (bs.map (fun x => x.name)).Nodup →
      (findInHier env (installLoop Itcl_CreateMethod env bs cls).1 b.name = true)
      ∧ (findInHier env cls b.name = true →
          ((installLoop Itcl_CreateMethod env bs cls).1).functions.filter
              (fun f => f.name = b.name)
            = cls.functions.filter (fun f => f.name = b.name))
      ∧ (findInHier env cls b.name = false →
          ((installLoop Itcl_CreateMethod env bs cls).1).functions.filter
              (fun f => f.name = b.name)
            = [mkBiFunc cls.fullname b]) := by
  intro bs
  induction bs with
  | nil =>
    intro cls b hb
    exact absurd hb (by simp)
  | cons b0 rest ih =>
    intro cls b hb hnd
    rw [List.map_cons, List.nodup_cons] at hnd
    obtain ⟨hb0, hnd2⟩ := hnd
    rcases List.mem_cons.mp hb with rfl | hbr
    · cases hfh : findInHier env cls b.name with
      | true =>
        have hred : installLoop Itcl_CreateMethod env (b :: rest) cls
            = installLoop Itcl_CreateMethod env rest cls := by
          simp only [installLoop, hfh, if_true]
        rw [hred]
        obtain ⟨_, h2, h3, extras, h4, h5⟩ := installLoop_createMethod_shape env rest cls
        have hexf : extras.filter (fun f => f.name = b.name) = [] := by
          rw [List.filter_eq_nil_iff]
          intro f hfe
          obtain ⟨b2, hb2, rfl⟩ := h5 f hfe
          simp only [mkBiFunc, decide_eq_true_eq]
          intro heq
          exact hb0 (List.mem_map.mpr ⟨b2, hb2, heq⟩)
        refine ⟨?_, fun _ => ?_, fun hcontra => ?_⟩
        · rw [findInHier_fields env cls _ extras b.name h2 h3 h4, hfh]
          simp
        · rw [h4, List.filter_append, hexf, List.append_nil]
        · exact Bool.noConfusion hcontra
      | false =>
        have hown := findInHier_false_own env cls b.name hfh
        have hcreate : Itcl_CreateMethod cls b
            = Except.ok { cls with functions := cls.functions ++ [mkBiFunc cls.fullname b] } := by
          simp [Itcl_CreateMethod, hown]
        have hred : installLoop Itcl_CreateMethod env (b :: rest) cls
            = installLoop Itcl_CreateMethod env rest
                { cls with functions := cls.functions ++ [mkBiFunc cls.fullname b] } := by
          simp only [installLoop, hfh, Bool.false_eq_true, if_false, hcreate]
        rw [hred]
        obtain ⟨_, h2, h3, extras, h4, h5⟩ :=
          installLoop_createMethod_shape env rest
            { cls with functions := cls.functions ++ [mkBiFunc cls.fullname b] }
        have h4b : (installLoop Itcl_CreateMethod env rest
              { cls with functions := cls.functions ++ [mkBiFunc cls.fullname b] }).1.functions
            = cls.functions ++ (mkBiFunc cls.fullname b :: extras) := by
          rw [h4]
          rw [show ({ cls with functions := cls.functions ++ [mkBiFunc cls.fullname b] }
              : ItclClass).functions = cls.functions ++ [mkBiFunc cls.fullname b] from rfl]
          rw [List.append_assoc]
          rfl
        have hexf : extras.filter (fun f => f.name = b.name) = [] := by
          rw [List.filter_eq_nil_iff]
          intro f hfe
          obtain ⟨b2, hb2, hfeq⟩ := h5 f hfe
          rw [hfeq]
          simp only [mkBiFunc, decide_eq_true_eq]
          intro heq
          exact hb0 (List.mem_map.mpr ⟨b2, hb2, heq⟩)
        have hownf : cls.functions.filter (fun f => f.name = b.name) = [] := by
          rw [List.filter_eq_nil_iff]
          intro f hfe
          have := List.any_eq_false.mp hown
          simpa using this f hfe
        refine ⟨?_, fun hcontra => ?_, fun _ => ?_⟩
        · rw [findInHier_fields env cls _ (mkBiFunc cls.fullname b :: extras) b.name h2 h3 h4b]
          simp [mkBiFunc]
        · exact Bool.noConfusion hcontra
        · rw [h4b, List.filter_append, hownf, List.nil_append, List.filter_cons]
          simp [mkBiFunc, hexf]
    · have hne : ¬(b0.name = b.name) := by
        intro heq
        exact hb0 (List.mem_map.mpr ⟨b, hbr, heq.symm⟩)
      cases hfh0 : findInHier env cls b0.name with
      | true =>
        have hred : installLoop Itcl_CreateMethod env (b0 :: rest) cls
            = installLoop Itcl_CreateMethod env rest cls := by
          simp only [installLoop, hfh0, if_true]
        rw [hred]
        exact ih cls b hbr hnd2
      | false =>
        have hown := findInHier_false_own env cls b0.name hfh0
        have hcreate : Itcl_CreateMethod cls b0
            = Except.ok { cls with functions := cls.functions ++ [mkBiFunc cls.fullname b0] } := by
          simp [Itcl_CreateMethod, hown]
        have hred : installLoop Itcl_CreateMethod env (b0 :: rest) cls
            = installLoop Itcl_CreateMethod env rest
                { cls with functions := cls.functions ++ [mkBiFunc cls.fullname b0] } := by
          simp only [installLoop, hfh0, Bool.false_eq_true, if_false, hcreate]
        rw [hred]
        have t1 : findInHier env
              ({ cls with functions := cls.functions ++ [mkBiFunc cls.fullname b0] } : ItclClass)
              b.name
            = findInHier env cls b.name := by
          rw [findInHier_fields env cls
              { cls with functions := cls.functions ++ [mkBiFunc cls.fullname b0] }
              [mkBiFunc cls.fullname b0] b.name rfl rfl rfl]
          simp [mkBiFunc, hne]
        obtain ⟨hA, hB, hC⟩ :=
          ih { cls with functions := cls.functions ++ [mkBiFunc cls.fullname b0] } b hbr hnd2
        have hfma : (cls.functions ++ [mkBiFunc cls.fullname b0]).filter
              (fun f => f.name = b.name)
            = cls.functions.filter (fun f => f.name = b.name) := by
          rw [List.filter_append]
          simp [mkBiFunc, hne]
        refine ⟨hA, fun hT => ?_, fun hF => ?_⟩
        · rw [hB (by rw [t1, hT])]
          exact hfma
        · exact hC (by rw [t1, hF])

/-- On failure the installation loop stops at the first needed built-in
whose creation fails: the class keeps exactly the members installed by
the earlier entries and the remaining entries are not installed. -/
theorem installLoop_abort
    (create : ItclClass → BiMethod → Except String ItclClass)
    (env : List ItclClass) :
    ∀ (bs : List BiMethod) (cls cls1 : ItclClass) (e : String),
      installLoop create env bs cls = (cls1, some e) →
      ∃ pre b post, bs = pre ++ b :: post
        ∧ installLoop create env pre cls = (cls1, none)
        ∧ findInHier env cls1 b.name = false
        ∧ create cls1 b = Except.error e := by
  intro bs
  induction bs with
  | nil =>
    intro cls cls1 e h
    simp [installLoop] at h
  | cons b0 rest ih =>
    intro cls cls1 e h
    cases hf : findInHier env cls b0.name with
    | true =>
      rw [show installLoop create env (b0 :: rest) cls = installLoop create env rest cls from by
        simp only [installLoop, hf, if_true]] at h
      obtain ⟨pre, b, post, hbs, hpre, hfh, hcr⟩ := ih cls cls1 e h
      refine ⟨b0 :: pre, b, post, by rw [hbs]; rfl, ?_, hfh, hcr⟩
      simp only [installLoop, hf, if_true]
      exact hpre
    | false =>
      cases hc : create cls b0 with
      | error e2 =>
        rw [show installLoop create env (b0 :: rest) cls = (cls, some e2) from by
          simp only [installLoop, hf, Bool.false_eq_true, if_false, hc]] at h
        rw [Prod.mk.injEq] at h
        obtain ⟨rfl, h2⟩ := h
        rw [Option.some.injEq] at h2
        subst h2
        exact ⟨[], b0, rest, rfl, rfl, hf, hc⟩
      | ok cls2 =>
        rw [show installLoop create env (b0 :: rest) cls = installLoop create env rest cls2 from by
          simp only [installLoop, hf, Bool.false_eq_true, if_false, hc]] at h
        obtain ⟨pre, b, post, hbs, hpre, hfh, hcr⟩ := ih cls2 cls1 e h
        refine ⟨b0 :: pre, b, post, by rw [hbs]; rfl, ?_, hfh, hcr⟩
        simp only [installLoop, hf, Bool.false_eq_true, if_false, hc]
        exact hpre

/-- C2: after a successful installation pass every class resolves each of
the four built-in names to exactly one member function: a user definition
found anywhere in the ancestor hierarchy (and then no built-in is
installed for that name), or else exactly one installed built-in bound to
its registration record; and a failing creation aborts the pass, leaving
exactly the built-ins of the earlier entries installed and the remaining
ones uninstalled. -/
theorem installBiMethods_exactly_one :
    (∀ (env : List ItclClass) (cls : ItclClass) (b : BiMethod), b ∈ BiMethodList →
      ((Itcl_InstallBiMethods Itcl_CreateMethod env cls).2 = none)
      ∧ (findInHier env (Itcl_InstallBiMethods Itcl_CreateMethod env cls).1 b.name = true)
      ∧ (findInHier env cls b.name = true →
          ((Itcl_InstallBiMethods Itcl_CreateMethod env cls).1).functions.filter
              (fun f => f.name = b.name)
            = cls.functions.filter (fun f => f.name = b.name))
      ∧ (findInHier env cls b.name = false →
          ((Itcl_InstallBiMethods Itcl_CreateMethod env cls).1).functions.filter
              (fun f => f.name = b.name)
            = [mkBiFunc cls.fullname b]))
    ∧ (∀ (create : ItclClass → BiMethod → Except String ItclClass)
        (env : List ItclClass) (bs : List BiMethod) (cls cls1 : ItclClass) (e : String),
        installLoop create env bs cls = (cls1, some e) →
        ∃ pre b post, bs = pre ++ b :: post
          ∧ installLoop create env pre cls = (cls1, none)
          ∧ findInHier env cls1 b.name = false
          ∧ create cls1 b = Except.error e) := by
  constructor
  · intro env cls b hb
    refine ⟨(installLoop_createMethod_shape env BiMethodList cls).1, ?_, ?_, ?_⟩
    · exact (installLoop_per_name env BiMethodList cls b hb (by decide)).1
    · exact (installLoop_per_name env BiMethodList cls b hb (by decide)).2.1
    · exact (installLoop_per_name env BiMethodList cls b hb (by decide)).2.2
  · intro create env bs cls cls1 e h
    exact installLoop_abort create env bs cls cls1 e h

/-- Sample creation routine that always fails. -/
def failCreate : ItclClass → BiMethod → Except String ItclClass :=
  fun _ _ => Except.error "boom"

/-- Witness for C2: installing into the sample class ::W (which defines
none of the four names) installs the cget built-in exactly once, and a
creation routine failing on the first needed entry aborts the pass
immediately with nothing installed. -/
theorem installBiMethods_exactly_one_witness :
    ((Itcl_InstallBiMethods Itcl_CreateMethod [] wClass).2 = none)
    ∧ (findInHier [] (Itcl_InstallBiMethods Itcl_CreateMethod [] wClass).1 "cget" = true)
    ∧ ((Itcl_InstallBiMethods Itcl_CreateMethod [] wClass).1.functions.filter
          (fun f => f.name = "cget")
        = [mkBiFunc "::W" ⟨"cget", "-option", "@itcl-builtin-cget"⟩])
    ∧ (∃ pre b post, BiMethodList = pre ++ b :: post
        ∧ installLoop failCreate [] pre wClass = (wClass, none)
        ∧ findInHier [] wClass b.name = false
        ∧ failCreate wClass b = Except.error "boom") :=
  ⟨(installBiMethods_exactly_one.1 [] wClass ⟨"cget", "-option", "@itcl-builtin-cget"⟩
      (by decide)).1,
   (installBiMethods_exactly_one.1 [] wClass ⟨"cget", "-option", "@itcl-builtin-cget"⟩
      (by decide)).2.1,
   (installBiMethods_exactly_one.1 [] wClass ⟨"cget", "-option", "@itcl-builtin-cget"⟩
      (by decide)).2.2.2 rfl,
   installBiMethods_exactly_one.2 failCreate [] BiMethodList wClass wClass "boom" rfl⟩

/-- Option name reported for a public variable, following the spec: a dash
plus the least-qualified name under which the most-derived class's table
resolves the variable's full name. -/
def reportedName (obj : ItclObject) (iv : ItclVariable) : String :=
  "-" ++ ((lookupRV obj.icls iv.fullName).map (fun vl => vl.leastQualName)).getD ""

/-- Configuration triple reported for a public variable, following the
spec: option name, default value or undefined sentinel, current value or
undefined sentinel. -/
def reportedTriple (st : Store) (obj : ItclObject) (iv : ItclVariable) : TObj :=
  TObj.list
    [TObj.str (reportedName obj iv),
     TObj.str (iv.init.getD "<undefined>"),
     TObj.str ((Itcl_GetInstanceVar st obj iv).getD "<undefined>")]

/-- When a variable's full name resolves, reporting it succeeds with the
declarative triple. -/
theorem report_eq_some (st : Store) (obj : ItclObject) (v : ItclVariable)
    (vl : ItclVarLookup) (hvl : lookupRV obj.icls v.fullName = some vl) :
    ItclReportPublicOpt st obj v = some (reportedTriple st obj v) := by
  simp [ItclReportPublicOpt, reportedTriple, reportedName, hvl]

/-- When every variable of the list resolves, reporting the whole list
succeeds with exactly the declarative triples. -/
theorem reportAll_eq (st : Store) (obj : ItclObject) :
    ∀ l : List ItclVariable,
      (∀ v ∈ l, (lookupRV obj.icls v.fullName).isSome = true) →
      reportAll st obj l = some (l.map (fun v => reportedTriple st obj v)) := by
  intro l
  induction l with
  | nil => intro _; rfl
  | cons v l2 ih =>
    intro h
    obtain ⟨vl, hvl⟩ := Option.isSome_iff_exists.mp (h v (List.mem_cons_self _ _))
    have h2 : ∀ w ∈ l2, (lookupRV obj.icls w.fullName).isSome = true :=
      fun w hw => h w (List.mem_cons_of_mem _ hw)
    simp [reportAll, report_eq_some st obj v vl hvl, ih h2]

/-- Appending the same prefix to two strings is cancellable. -/
theorem string_append_left_cancel (p a b : String) (h : p ++ a = p ++ b) : a = b := by
  have hd : p.data ++ a.data = p.data ++ b.data := by
    have := congrArg String.data h
    simpa [String.data_append] using this
  exact String.ext (List.append_cancel_left hd)

/-- C4: configure with no arguments reports, for every public variable
visible in the full hierarchy (classes in hierarchy-iterator order,
ancestor classes visited exactly once, each class's variable table in
creation order), the triple of option name, default and current value;
and when the resolved-variable table assigns distinct least-qualified
names to distinct variables, every public option is reported exactly
once. -/
theorem configure_noargs_options
    (hookEval : String → Store → Store × Option String)
    (delegate : Option ItclWidgetDelegate) (env : List ItclClass)
    (obj : ItclObject) (st : Store)
    (hcls : obj.icls.isClass = true)
    (hrep : ∀ v ∈ publicHierVars env obj, (lookupRV obj.icls v.fullName).isSome = true)
    (hnd : (publicHierVars env obj).Nodup)
    (hinj : ∀ v1 ∈ publicHierVars env obj, ∀ v2 ∈ publicHierVars env obj,
        ∀ vl1 vl2 : ItclVarLookup, lookupRV obj.icls v1.fullName = some vl1 →
          lookupRV obj.icls v2.fullName = some vl2 →
          vl1.leastQualName = vl2.leastQualName → v1 = v2) :
    Itcl_BiConfigureCmd hookEval delegate env (some obj) [] st
      = (TclRes.normal (TObj.list
          ((publicHierVars env obj).map (fun v => reportedTriple st obj v))), st)
    ∧ ((hierarchyOf env obj.icls).map (fun c => c.fullname)).Nodup
    ∧ ((publicHierVars env obj).map (fun v => reportedName obj v)).Nodup := by
  refine ⟨?_, hierarchyOf_nodup env obj.icls, ?_⟩
  · rw [biConfigure_to_core hookEval delegate env obj [] st hcls]
    simp only [configureCore]
    rw [reportAll_eq st obj (publicHierVars env obj) hrep]
  · refine List.Nodup.map_on ?_ hnd
    intro v1 h1 v2 h2 heq
    obtain ⟨vl1, hvl1⟩ := Option.isSome_iff_exists.mp (hrep v1 h1)
    obtain ⟨vl2, hvl2⟩ := Option.isSome_iff_exists.mp (hrep v2 h2)
    rw [reportedName, reportedName, hvl1, hvl2] at heq
    have hlq : vl1.leastQualName = vl2.leastQualName :=
      string_append_left_cancel "-" _ _ (by simpa using heq)
    exact hinj v1 h1 v2 h2 vl1 vl2 hvl1 hvl2 hlq

/-- Sample public base-class variable. -/
def bVar : ItclVariable :=
  { name := "bx", fullName := "::B::bx", declClass := "::B",
    protection := Protection.pub, init := some "1", hasConfig := false }

/-- Sample base class ::B. -/
def bClass : ItclClass :=
  { fullname := "::B", supers := [], functions := [], vars := [bVar],
    resolveVars := [("bx", ⟨bVar, "bx"⟩), ("::B::bx", ⟨bVar, "bx"⟩)],
    components := [], isClass := true, widgetFrame := false, widgetToplevel := false }

/-- Sample public derived-class variable. -/
def dVar : ItclVariable :=
  { name := "dx", fullName := "::D::dx", declClass := "::D",
    protection := Protection.pub, init := none, hasConfig := false }

/-- Sample derived class ::D extending ::B. -/
def dClass : ItclClass :=
  { fullname := "::D", supers := ["::B"], functions := [], vars := [dVar],
    resolveVars := [("dx", ⟨dVar, "dx"⟩), ("::D::dx", ⟨dVar, "dx"⟩),
                    ("bx", ⟨bVar, "bx"⟩), ("::B::bx", ⟨bVar, "bx"⟩)],
    components := [], isClass := true, widgetFrame := false, widgetToplevel := false }

/-- Sample object of the derived class ::D. -/
def dObj : ItclObject := { icls := dClass, varNsName := "ns", accessCmd := "d1" }

/-- Sample registry holding ::D and ::B. -/
def dEnv : List ItclClass := [dClass, bClass]

/-- Witness for C4 on a two-class hierarchy with one public variable per
class. -/
theorem configure_noargs_options_witness :
    Itcl_BiConfigureCmd failHook none dEnv (some dObj) [] []
      = (TclRes.normal (TObj.list
          ((publicHierVars dEnv dObj).map (fun v => reportedTriple [] dObj v))), [])
    ∧ ((hierarchyOf dEnv dObj.icls).map (fun c => c.fullname)).Nodup
    ∧ ((publicHierVars dEnv dObj).map (fun v => reportedName dObj v)).Nodup :=
  configure_noargs_options failHook none dEnv dObj [] rfl (by decide) (by decide)
    (by
      intro v1 h1 v2 h2 vl1 vl2 e1 e2 hlq
      have hl : publicHierVars dEnv dObj = [dVar, bVar] := by decide
      rw [hl] at h1 h2
      simp only [List.mem_cons, List.not_mem_nil, or_false] at h1 h2
      rcases h1 with rfl | rfl <;> rcases h2 with rfl | rfl
      · rfl
      · rw [show lookupRV dObj.icls dVar.fullName = some ⟨dVar, "dx"⟩ from rfl] at e1
        rw [show lookupRV dObj.icls bVar.fullName = some ⟨bVar, "bx"⟩ from rfl] at e2
        cases e1; cases e2
        exact absurd hlq (by decide)
      · rw [show lookupRV dObj.icls bVar.fullName = some ⟨bVar, "bx"⟩ from rfl] at e1
        rw [show lookupRV dObj.icls dVar.fullName = some ⟨dVar, "dx"⟩ from rfl] at e2
        cases e1; cases e2
        exact absurd hlq (by decide)
      · rfl)

/-- In the virtual scope of a plain class kind, cget never delegates. -/
theorem biCget_to_core (delegate : Option ItclWidgetDelegate)
    (obj : ItclObject) (name : String) (st : Store)
    (hcls : obj.icls.isClass = true) :
    Itcl_BiCgetCmd delegate (some obj) [name] st = (cgetCore obj name st, st) := by
  cases delegate with
  | none => rfl
  | some d => simp [Itcl_BiCgetCmd, hcls]

/-- C5: for a public option, the value cget returns equals the third
element of the triple configure returns for the same option: both report
the current value, or the undefined sentinel when the variable is
unset. -/
theorem cget_configure_third_element
    (hookEval : String → Store → Store × Option String)
    (delegate : Option ItclWidgetDelegate) (env : List ItclClass)
    (obj : ItclObject) (st : Store) (x : List Char) (vl : ItclVarLookup)
    (hcls : obj.icls.isClass = true)
    (hlook : lookupRV obj.icls (String.mk x) = some vl)
    (hpub : vl.ivar.protection = Protection.pub)
    (hrep : (lookupRV obj.icls vl.ivar.fullName).isSome = true) :
    Itcl_BiCgetCmd delegate (some obj) [String.mk ('-' :: x)] st
      = (TclRes.normal
          (TObj.str ((Itcl_GetInstanceVar st obj vl.ivar).getD "<undefined>")), st)
    ∧ ∃ n i : String,
        Itcl_BiConfigureCmd hookEval delegate env (some obj) [String.mk ('-' :: x)] st
          = (TclRes.normal (TObj.list [TObj.str n, TObj.str i,
              TObj.str ((Itcl_GetInstanceVar st obj vl.ivar).getD "<undefined>")]), st) := by
  constructor
  · rw [biCget_to_core delegate obj _ st hcls]
    have hkey : strTail (String.mk ('-' :: x)) = String.mk x := rfl
    simp only [cgetCore, hkey, hlook, hpub]
    simp
  · obtain ⟨vl2, hvl2⟩ := Option.isSome_iff_exists.mp hrep
    refine ⟨"-" ++ vl2.leastQualName, vl.ivar.init.getD "<undefined>", ?_⟩
    rw [biConfigure_to_core hookEval delegate env obj _ st hcls]
    have hdash : strHeadIsDash (String.mk ('-' :: x)) = true := rfl
    have hkey : strTail (String.mk ('-' :: x)) = String.mk x := rfl
    simp only [configureCore, hdash, hkey, hlook, hpub, ItclReportPublicOpt, hvl2]
    simp

/-- C7: a composite (widget-style) class kind with a configuration
delegate forwards cget and configure calls whole to the delegate and
returns its result verbatim; a plain class kind, or a missing delegate,
runs the built-in core logic. -/
theorem widget_delegation_forward
    (hookEval : String → Store → Store × Option String)
    (d : ItclWidgetDelegate) (env : List ItclClass)
    (obj obj2 : ItclObject) (args : List String) (name : String) (st : Store)
    (hw : obj.icls.isClass = false)
    (hc : obj2.icls.isClass = true) :
    Itcl_BiConfigureCmd hookEval (some d) env (some obj) args st
      = d obj.icls ("configure" :: args) st
    ∧ Itcl_BiCgetCmd (some d) (some obj) [name] st = d obj.icls ["cget", name] st
    ∧ Itcl_BiConfigureCmd hookEval (some d) env (some obj2) args st
      = configureCore hookEval env obj2 args st
    ∧ Itcl_BiCgetCmd (some d) (some obj2) [name] st = (cgetCore obj2 name st, st)
    ∧ Itcl_BiConfigureCmd hookEval none env (some obj) args st
      = configureCore hookEval env obj args st := by
  refine ⟨?_, ?_, biConfigure_to_core hookEval (some d) env obj2 args st hc,
    biCget_to_core (some d) obj2 name st hc, rfl⟩
  · simp [Itcl_BiConfigureCmd, hw]
  · simp [Itcl_BiCgetCmd, hw]

/-- C8: isa with one class-name argument fails with the resolution error
when the class cannot be found even after the autoload attempt, never
returning a normal result; when the class is found it returns 1 or 0
according to the object's heritage. -/
theorem isa_unknown_class_error
    (findClass : String → Except String ItclClass) (env : List ItclClass)
    (obj : ItclObject) (token e : String) (cls : ItclClass) :
    (findClass token = Except.error e →
      Itcl_BiIsaCmd findClass env (some obj) [token] = TclRes.error e
      ∧ ∀ t : TObj, Itcl_BiIsaCmd findClass env (some obj) [token] ≠ TclRes.normal t)
    ∧ (findClass token = Except.ok cls →
      Itcl_BiIsaCmd findClass env (some obj) [token]
        = TclRes.normal (TObj.str (if Itcl_ObjectIsa env obj cls then "1" else "0"))) := by
  constructor
  · intro hf
    have hres : Itcl_BiIsaCmd findClass env (some obj) [token] = TclRes.error e := by
      simp [Itcl_BiIsaCmd, hf]
    refine ⟨hres, fun t hn => ?_⟩
    rw [hres] at hn
    cases hn
  · intro hf
    simp [Itcl_BiIsaCmd, hf]

/-- C9: the cget option lookup key is the argument with exactly its first
character removed, with no check that the character is a dash, so any
first character acts like the leading dash and the argument is resolved
rather than rejected. -/
theorem cget_first_char_ignored
    (delegate : Option ItclWidgetDelegate) (obj : ItclObject) (st : Store)
    (rest : List Char) (vl : ItclVarLookup)
    (hcls : obj.icls.isClass = true)
    (hlook : lookupRV obj.icls (String.mk rest) = some vl)
    (hpub : vl.ivar.protection = Protection.pub) :
    ∀ c1 : Char,
      Itcl_BiCgetCmd delegate (some obj) [String.mk (c1 :: rest)] st
        = (TclRes.normal
            (TObj.str ((Itcl_GetInstanceVar st obj vl.ivar).getD "<undefined>")), st) := by
  intro c1
  rw [biCget_to_core delegate obj _ st hcls]
  have hkey : strTail (String.mk (c1 :: rest)) = String.mk rest := rfl
  simp only [cgetCore, hkey, hlook, hpub]
  simp

/-- Sample widget-definition result class with neither widget flag set. -/
def widgetBase : ItclClass :=
  { fullname := "::WT", supers := [], functions := [], vars := [],
    resolveVars := [], components := [], isClass := false,
    widgetFrame := false, widgetToplevel := false }

/-- C10: evaluating widget-class creation shows the hull component and
the default frame flag are produced as claimed, but the options member
variable is created under the name "itcl_option": the byte count 11
passed to Tcl_NewStringObj truncates the 12-character literal
"itcl_options". -/
theorem widgetcmd_truncated_options_name :
    (Itcl_WidgetCmd (Except.ok widgetBase)).map
        (fun c => ((c.vars.map (fun v => v.name)).contains "itcl_options",
                   (c.vars.map (fun v => v.name)).contains "itcl_option",
                   c.components.contains "hull", c.widgetFrame))
      = Except.ok (false, true, true, true)
    ∧ tclNewStringObj "itcl_options" 11 = "itcl_option" := by
  constructor
  · rfl
  · rfl

/-- Witness for C5: on a ::W object whose color is "blue", cget -color
returns "blue" and configure -color reports a triple ending in "blue". -/
theorem cget_configure_third_element_witness :
    Itcl_BiCgetCmd none (some wObj) [String.mk ('-' :: ['c', 'o', 'l', 'o', 'r'])]
        [("ns::W::color", "blue")]
      = (TclRes.normal (TObj.str "blue"), [("ns::W::color", "blue")])
    ∧ ∃ n i : String,
        Itcl_BiConfigureCmd failHook none [] (some wObj)
            [String.mk ('-' :: ['c', 'o', 'l', 'o', 'r'])] [("ns::W::color", "blue")]
          = (TclRes.normal (TObj.list [TObj.str n, TObj.str i, TObj.str "blue"]),
             [("ns::W::color", "blue")]) :=
  cget_configure_third_element failHook none [] wObj [("ns::W::color", "blue")]
    ['c', 'o', 'l', 'o', 'r'] ⟨colorVar, "color"⟩ rfl rfl rfl rfl

/-- Sample composite (widget-style) class kind. -/
def compClass : ItclClass :=
  { fullname := "::CW", supers := [], functions := [], vars := [],
    resolveVars := [], components := ["hull"], isClass := false,
    widgetFrame := true, widgetToplevel := false }

/-- Sample object of the composite class kind. -/
def compObj : ItclObject :=
  { icls := compClass, varNsName := "cns", accessCmd := "cw1" }

/-- Sample configuration delegate echoing the class and the call words. -/
def echoDelegate : ItclWidgetDelegate :=
  fun c words st => (TclRes.normal (TObj.list (TObj.str c.fullname :: words.map TObj.str)), st)

/-- Witness for C7: the composite object forwards both calls whole to the
delegate; the plain ::W object and the delegate-less composite run the
built-in core. -/
theorem widget_delegation_forward_witness :
    Itcl_BiConfigureCmd failHook (some echoDelegate) [] (some compObj) ["-o", "v"] []
      = echoDelegate compClass ["configure", "-o", "v"] []
    ∧ Itcl_BiCgetCmd (some echoDelegate) (some compObj) ["-o"] []
      = echoDelegate compClass ["cget", "-o"] []
    ∧ Itcl_BiConfigureCmd failHook (some echoDelegate) [] (some wObj) ["-o", "v"] []
      = configureCore failHook [] wObj ["-o", "v"] []
    ∧ Itcl_BiCgetCmd (some echoDelegate) (some wObj) ["-o"] []
      = (cgetCore wObj "-o" [], [])
    ∧ Itcl_BiConfigureCmd failHook none [] (some compObj) ["-o", "v"] []
      = configureCore failHook [] compObj ["-o", "v"] [] :=
  widget_delegation_forward failHook echoDelegate [] compObj wObj ["-o", "v"] "-o" [] rfl rfl

/-- Sample class finder that always fails with a resolution message. -/
def noFind : String → Except String ItclClass :=
  fun n => Except.error ("class \"" ++ n ++ "\" not found in context \"::\"")

/-- Sample class finder that resolves every name to ::B. -/
def okFind : String → Except String ItclClass :=
  fun _ => Except.ok bClass

/-- Witness for C8: an unresolvable class name makes isa fail with the
resolution error and never yields a normal result; the base class ::B of
the ::D object yields 1. -/
theorem isa_unknown_class_error_witness :
    (Itcl_BiIsaCmd noFind dEnv (some dObj) ["::Missing"]
        = TclRes.error ("class \"" ++ "::Missing" ++ "\" not found in context \"::\"")
      ∧ ∀ t : TObj, Itcl_BiIsaCmd noFind dEnv (some dObj) ["::Missing"] ≠ TclRes.normal t)
    ∧ Itcl_BiIsaCmd okFind dEnv (some dObj) ["::B"] = TclRes.normal (TObj.str "1") :=
  ⟨(isa_unknown_class_error noFind dEnv dObj "::Missing"
      ("class \"" ++ "::Missing" ++ "\" not found in context \"::\"") bClass).1 rfl,
   by
     have h := (isa_unknown_class_error okFind dEnv dObj "::B" "" bClass).2 rfl
     rw [h, show Itcl_ObjectIsa dEnv dObj bClass = true from rfl]
     rfl⟩

/-- Witness for C9: cget with argument "Xcolor" (first character not a
dash) on a ::W object resolves the option color and returns its value. -/
theorem cget_first_char_ignored_witness :
    Itcl_BiCgetCmd none (some wObj) [String.mk ('X' :: ['c', 'o', 'l', 'o', 'r'])]
        [("ns::W::color", "red")]
      = (TclRes.normal (TObj.str "red"), [("ns::W::color", "red")]) :=
  cget_first_char_ignored none wObj [("ns::W::color", "red")]
    ['c', 'o', 'l', 'o', 'r'] ⟨colorVar, "color"⟩ rfl rfl rfl 'X'

/-- C4 counterexample: on the ::D object extending ::B, the no-argument
configure reports the derived class's option -dx before the ancestor's
-bx; the traversal is most-derived-class first (as the hierarchy iterator
and the chain dispatcher's walk order require), not ancestor-first. -/
theorem configure_noargs_ancestor_first_counterexample :
    Itcl_BiConfigureCmd failHook none dEnv (some dObj) [] []
      = (TclRes.normal (TObj.list
          [TObj.list [TObj.str "-dx", TObj.str "<undefined>", TObj.str "<undefined>"],
           TObj.list [TObj.str "-bx", TObj.str "1", TObj.str "<undefined>"]]), [])
    ∧ Itcl_BiConfigureCmd failHook none dEnv (some dObj) [] []
      ≠ (TclRes.normal (TObj.list
          [TObj.list [TObj.str "-bx", TObj.str "1", TObj.str "<undefined>"],
           TObj.list [TObj.str "-dx", TObj.str "<undefined>", TObj.str "<undefined>"]]), [])
    ∧ dVar.declClass = dClass.fullname ∧ bVar.declClass = bClass.fullname
    ∧ dClass.supers = [bClass.fullname] := by
  have hres : Itcl_BiConfigureCmd failHook none dEnv (some dObj) [] []
      = (TclRes.normal (TObj.list
          [TObj.list [TObj.str "-dx", TObj.str "<undefined>", TObj.str "<undefined>"],
           TObj.list [TObj.str "-bx", TObj.str "1", TObj.str "<undefined>"]]), []) := rfl
  refine ⟨hres, ?_, rfl, rfl, rfl⟩
  rw [hres]
  intro h
  simp at h

end Itcl
